import Mathlib

/-!
Verification of the identifier-extraction engine of `scripts/pycount.py`.

The script walks a CPython abstract syntax tree with an `ast.NodeVisitor`
subclass (`Visitor`) and writes one csv row `[name, lineno, col_offset + 1,
fname]` for every identifier occurrence it discovers.  This file gives a
shallow embedding of that traversal:

* `Node` (together with `Keyword`, `Arguments`, `Arg` and `Alias`) mirrors
  the CPython AST node kinds for which `Visitor` defines a handler, plus a
  catch-all `Other` constructor for every unhandled kind (the handler set is
  closed, so any other node only contributes its children via
  `ast.NodeVisitor.generic_visit`).  Each node carries its `lineno`
  (1-based in CPython) and `col_offset` (0-based).  `ast.alias`,
  `ast.keyword` and `ast.arg` nodes carry their own positions (CPython 3.10+).
  `expr_context` markers (`Load`/`Store`/...) have neither children nor a
  handler and are omitted.
* `visit` mirrors `Visitor.visit`'s dynamic dispatch: one equation per
  handler (`visit_Name`, `visit_Call`, ...), with `generic_visit` expanded
  in-place as the concatenation of the children's visits in AST field
  order, exactly as `ast.iter_child_nodes` enumerates them.
* The `file` csv column is a per-run constant (`Visitor.fname`) supplied by
  the driver and not derived from the tree, so an `Occurrence` is the
  `(name, line, column)` triple the engine computes.

Each claim theorem is stated over these definitions; concrete example trees
reproduce the unit tests and counterexamples.
-/

namespace Pycount

/-- Source position carried by AST nodes: `lineno` (1-based in CPython) and
`col_offset` (0-based). -/
structure Pos where
  lineno : Nat
  col_offset : Nat
deriving DecidableEq

/-- One output record of the engine: the row `[name, node.lineno,
node.col_offset + 1]` written by `Visitor._write` (line 14), without the
constant `fname` column. -/
structure Occurrence where
  name : String
  line : Nat
  col : Nat
deriving DecidableEq

/-- `ast.alias`: an entry of an `ast.Import`/`ast.ImportFrom` names list.
`name` is a required identifier or dotted path, `asname` is optional.
Since CPython 3.10 an alias carries its own source position (`pos` here),
distinct from the enclosing statement's position. -/
structure Alias where
  pos : Pos
  name : String
  asname : Option String
deriving DecidableEq

mutual
/-- The AST node kinds with a dedicated `visit_*` handler in `Visitor`,
plus `Other` for every node kind without one (`Module`, `Return`,
`Constant`, `Match`, arithmetic operators, ...), which only carries its
child nodes in `_fields` order.  Field order of every constructor follows
the CPython `_fields` tuple of the corresponding node class. -/
inductive Node where
  | Name (pos : Pos) (id : String)
  | Call (pos : Pos) (func : Node) (args : List Node) (keywords : List Keyword)
  | Attribute (pos : Pos) (value : Node) (attr : String)
  | Import (pos : Pos) (names : List Alias)
  | ImportFrom (pos : Pos) (module : Option String) (names : List Alias)
  | MatchAs (pos : Pos) (pattern : Option Node) (name : Option String)
  | FunctionDef (pos : Pos) (name : String) (args : Arguments)
      (body : List Node) (decorator_list : List Node) (returns : Option Node)
  | AsyncFunctionDef (pos : Pos) (name : String) (args : Arguments)
      (body : List Node) (decorator_list : List Node) (returns : Option Node)
  | Global (pos : Pos) (names : List String)
  | Nonlocal (pos : Pos) (names : List String)
  | ClassDef (pos : Pos) (name : String) (bases : List Node)
      (keywords : List Keyword) (body : List Node) (decorator_list : List Node)
  | Other (pos : Pos) (children : List Node)

/-- `ast.keyword`: a keyword argument of a call or class definition.
`arg` is `None` for a double-star argument (`f(**d)`). -/
inductive Keyword where
  | mk (pos : Pos) (arg : Option String) (value : Node)

/-- `ast.arguments`, fields in CPython `_fields` order:
`('posonlyargs', 'args', 'vararg', 'kwonlyargs', 'kw_defaults',
'defaults', 'kwarg')`.  `kw_defaults` holds `None` for keyword-only
parameters without a default; `defaults` holds only expressions in
CPython, but is given the same option type so that the `is not None`
guards of `_visit_arguments` (lines 71, 76) can be mirrored verbatim. -/
inductive Arguments where
  | mk (posonlyargs : List Arg) (args : List Arg) (vararg : Option Arg)
      (kwonlyargs : List Arg) (kw_defaults : List (Option Node))
      (defaults : List (Option Node)) (kwarg : Option Arg)

/-- `ast.arg`: one formal parameter, with its own position, its name
(the `arg` string field) and an optional annotation expression. -/
inductive Arg where
  | mk (pos : Pos) (arg : String) ( annotation : Option Node)
end

/-- `ast.alias.pos` accessor. -/
def Alias.position : Alias → Pos
  | a => a.pos

/-- `Visitor._write(name, node)` (lines 13-14): one csv row carrying the
name, the node's `lineno`, and its `col_offset + 1`. -/
def _write (name : String) (node : Pos) : List Occurrence :=
  [⟨name, node.lineno, node.col_offset + 1⟩]

/-- Python's `str.split` with a single-character separator, as used by
`node.name.split(".")` (line 49) and `node.module.split(".")` (line 40):
the accumulator collects the current segment; a separator flushes it.
`"".split(".") = [""]` and `"a..b".split(".") = ["a", "", "b"]`, exactly
as in Python. -/
def pySplitAux (c : Char) : List Char → List Char → List String
  | [], acc => [String.mk acc.reverse]
  | x :: xs, acc =>
    if x = c then String.mk acc.reverse :: pySplitAux c xs []
    else pySplitAux c xs (x :: acc)

/-- Python `s.split(c)` for one-character separators. -/
def pySplit (c : Char) (s : String) : List String :=
  pySplitAux c s.toList []

/-- `Visitor._visit_keyword` (lines 25-27): write the keyword's parameter
name at the keyword node's own position if `node.arg` is truthy (present
and non-empty); a double-star keyword (`arg = None`) writes nothing.
Not recursive: the keyword's value is reached separately through
`generic_visit` on the enclosing call / class definition. -/
def _visit_keyword : Keyword → List Occurrence
  | ⟨pos, arg, _⟩ =>
    match arg with
    | some s => if s = "" then [] else _write s pos
    | none => []

/-- `Visitor._visit_alias` (lines 47-53): if `node.name` is truthy, split
it on `.` and write each non-empty segment at the alias node's position;
then, if `node.asname` is truthy, write it at the same position. -/
def _visit_alias (node : Alias) : List Occurrence :=
  (if node.name = "" then []
   else (pySplit '.' node.name).flatMap
     (fun part => if part = "" then [] else _write part node.pos))
  ++ (match node.asname with
      | some s => if s = "" then [] else _write s node.pos
      | none => [])

/-- `Visitor._visit_arg` (lines 80-83): nothing for an absent (`None`)
parameter slot, otherwise one row with the parameter's name at the `arg`
node's position.  The annotation is not visited here. -/
def _visit_arg : Option Arg → List Occurrence
  | none => []
  | some ⟨pos, a, _⟩ => _write a pos

/-- `generic_visit` on an `ast.alias` node: aliases have no child AST
nodes (`name` and `asname` are strings), so nothing is emitted. -/
def genericAlias (_ : Alias) : List Occurrence := []

/-- `csv.writer.writerow` renders the Python value `None` as an empty
field; `visit_MatchAs` (line 56) passes `node.name` to `_write`
unguarded, so a `None` capture name becomes an empty name string. -/
def csvCell : Option String → String
  | none => ""
  | some s => s

mutual
/-- `Visitor.visit` dispatch.  Each equation is the corresponding
`visit_*` handler with its trailing `generic_visit(node)` expanded as the
concatenation of the children's visits in `_fields` order:

* `visit_Name` (16-18): write `id`, then `generic_visit` (the `ctx`
  marker contributes nothing).
* `visit_Call` (20-23): `_visit_keyword` for each keyword, then
  `generic_visit` over `func`, positional `args`, and the keyword nodes
  (whose dispatch falls through to `generic_visit`, visiting each value).
* `visit_Attribute` (29-31): `generic_visit` into `value` first, the
  attribute name written last (post-order).
* `visit_Import` (33-36): `_visit_alias` per alias, then `generic_visit`
  (alias nodes have no children).
* `visit_ImportFrom` (38-45): split the truthy module path, then the
  aliases, then `generic_visit`.
* `visit_MatchAs` (55-57): write `node.name` unguarded (a `None` name is
  rendered as an empty csv field), then `generic_visit` into the pattern.
* `visit_FunctionDef` (59-62) / `visit_AsyncFunctionDef` (101-104):
  write the function name, run `_visit_arguments`, then `generic_visit`
  over `args` (re-traversing the arguments node!), `body`,
  `decorator_list` and `returns`.
* `visit_Global` (85-88) / `visit_Nonlocal` (90-93): write each declared
  name at the statement position.
* `visit_ClassDef` (95-99): write the class name, `_visit_keyword` for
  each base keyword, then `generic_visit` over `bases`, the keyword
  nodes, `body` and `decorator_list`.
* every other kind: no handler, `generic_visit` only. -/
def visit : Node → List Occurrence
  | .Name pos id => _write id pos
  | .Call _ func args kws =>
      kws.flatMap _visit_keyword
        ++ (visit func ++ (visitList args ++ genericKeywordList kws))
  | .Attribute pos value attr =>
      visit value ++ _write attr pos
  | .Import _ names =>
      names.flatMap _visit_alias ++ names.flatMap genericAlias
  | .ImportFrom pos module names =>
      (match module with
       | some m =>
         if m = "" then []
         else (pySplit '.' m).flatMap
           (fun part => if part = "" then [] else _write part pos)
       | none => [])
      ++ (names.flatMap _visit_alias ++ names.flatMap genericAlias)
  | .MatchAs pos pat name =>
      _write (csvCell name) pos ++ visitOpt pat
  | .FunctionDef pos name args body dec ret =>
      _write name pos ++ (_visit_arguments args
        ++ (genericArguments args ++ (visitList body ++ (visitList dec ++ visitOpt ret))))
  | .AsyncFunctionDef pos name args body dec ret =>
      _write name pos ++ (_visit_arguments args
        ++ (genericArguments args ++ (visitList body ++ (visitList dec ++ visitOpt ret))))
  | .Global pos names => names.flatMap (fun n => _write n pos)
  | .Nonlocal pos names => names.flatMap (fun n => _write n pos)
  | .ClassDef pos name bases kws body dec =>
      _write name pos ++ (kws.flatMap _visit_keyword
        ++ (visitList bases ++ (genericKeywordList kws
        ++ (visitList body ++ visitList dec))))
  | .Other _ children => visitList children

/-- Visit a child list in order (the `for` loop inside `generic_visit`). -/
def visitList : List Node → List Occurrence
  | [] => []
  | n :: ns => visit n ++ visitList ns

/-- Visit an optional child; `ast.iter_child_nodes` skips `None`. -/
def visitOpt : Option Node → List Occurrence
  | none => []
  | some n => visit n

/-- Visit a list of optional children, skipping `None` entries: this is
both the `for default in ...: if default is not None: self.visit(default)`
loops of `_visit_arguments` (lines 70-72, 75-77) and the way
`iter_child_nodes` enumerates `kw_defaults`/`defaults`. -/
def visitOptList : List (Option Node) → List Occurrence
  | [] => []
  | d :: ds => visitOpt d ++ visitOptList ds

/-- `generic_visit` reaching a list of `ast.keyword` nodes: the visitor
has no `visit_keyword` method (the helper is named `_visit_keyword`), so
dispatch falls through to `generic_visit`, which visits each value. -/
def genericKeywordList : List Keyword → List Occurrence
  | [] => []
  | ⟨_, _, value⟩ :: ks => visit value ++ genericKeywordList ks

/-- `Visitor._visit_arguments` (lines 64-78), statement by statement:
positional-only parameters, positional parameters, the variadic
positional slot, positional defaults (visited as expressions), the
keyword-only parameters, keyword-only defaults, and finally the variadic
keyword slot. -/
def _visit_arguments : Arguments → List Occurrence
  | ⟨po, args, vararg, ko, kwd, ds, kwarg⟩ =>
      po.flatMap (fun a => _visit_arg (some a))
        ++ (args.flatMap (fun a => _visit_arg (some a))
        ++ (_visit_arg vararg
        ++ (visitOptList ds
        ++ (ko.flatMap (fun a => _visit_arg (some a))
        ++ (visitOptList kwd
        ++ _visit_arg kwarg)))))

/-- `generic_visit` reaching the `ast.arguments` node (there is no
`visit_arguments` method): children are enumerated in `_fields` order
`posonlyargs, args, vararg, kwonlyargs, kw_defaults, defaults, kwarg`.
Note that this re-visits the default expressions already visited by
`_visit_arguments`. -/
def genericArguments : Arguments → List Occurrence
  | ⟨po, args, vararg, ko, kwd, ds, kwarg⟩ =>
      genericArgList po
        ++ (genericArgList args
        ++ (genericArgOpt vararg
        ++ (genericArgList ko
        ++ (visitOptList kwd
        ++ (visitOptList ds
        ++ genericArgOpt kwarg)))))

/-- `generic_visit` reaching `ast.arg` nodes (no `visit_arg` method):
only the annotation child is visited; the parameter name is a string
field and contributes nothing here. -/
def genericArgList : List Arg → List Occurrence
  | [] => []
  | ⟨_, _, an⟩ :: rest => visitOpt an ++ genericArgList rest

/-- `generic_visit` for an optional `ast.arg` slot. -/
def genericArgOpt : Option Arg → List Occurrence
  | none => []
  | some ⟨_, _, an⟩ => visitOpt an
end

/-! ### Collected node positions

`posNode t` lists the position of every AST node of the tree `t`
(statements, expressions, and the `arg`/`keyword`/`alias` helper nodes).
It is the reference against which claim C8 relates each occurrence to the
node that produced it. -/

mutual
/-- All node positions of a tree. -/
def posNode : Node → List Pos
  | .Name pos _ => [pos]
  | .Call pos func args kws =>
      pos :: (posNode func ++ (posList args ++ posKeywordList kws))
  | .Attribute pos value _ => pos :: posNode value
  | .Import pos names => pos :: names.map Alias.position
  | .ImportFrom pos _ names => pos :: names.map Alias.position
  | .MatchAs pos pat _ => pos :: posOpt pat
  | .FunctionDef pos _ args body dec ret =>
      pos :: (posArguments args ++ (posList body ++ (posList dec ++ posOpt ret)))
  | .AsyncFunctionDef pos _ args body dec ret =>
      pos :: (posArguments args ++ (posList body ++ (posList dec ++ posOpt ret)))
  | .Global pos _ => [pos]
  | .Nonlocal pos _ => [pos]
  | .ClassDef pos _ bases kws body dec =>
      pos :: (posList bases ++ (posKeywordList kws ++ (posList body ++ posList dec)))
  | .Other pos children => pos :: posList children

/-- Positions of a node list. -/
def posList : List Node → List Pos
  | [] => []
  | n :: ns => posNode n ++ posList ns

/-- Positions of an optional node. -/
def posOpt : Option Node → List Pos
  | none => []
  | some n => posNode n

/-- Positions of a list of optional nodes. -/
def posOptList : List (Option Node) → List Pos
  | [] => []
  | d :: ds => posOpt d ++ posOptList ds

/-- Positions of a keyword list: each keyword node's own position and the
positions inside its value. -/
def posKeywordList : List Keyword → List Pos
  | [] => []
  | ⟨p, _, v⟩ :: ks => (p :: posNode v) ++ posKeywordList ks

/-- Positions of an `ast.arguments` node's subtree. -/
def posArguments : Arguments → List Pos
  | ⟨po, args, vararg, ko, kwd, ds, kwarg⟩ =>
      posArgList po
        ++ (posArgList args
        ++ (posArgOpt vararg
        ++ (posArgList ko
        ++ (posOptList kwd
        ++ (posOptList ds
        ++ posArgOpt kwarg)))))

/-- Positions of a parameter list: each `arg` node's position and the
positions inside its annotation. -/
def posArgList : List Arg → List Pos
  | [] => []
  | ⟨p, _, an⟩ :: rest => (p :: posOpt an) ++ posArgList rest

/-- Positions of an optional `arg` slot. -/
def posArgOpt : Option Arg → List Pos
  | none => []
  | some ⟨p, _, an⟩ => p :: posOpt an
end

/-! ### Example trees -/

/-- The tree of `def f(x=a): pass`: the default expression `a` is a name
reference at column 8; the function's parameters are `[x]` with one
positional default. -/
def exC1 : Node :=
  .FunctionDef ⟨1, 0⟩ "f"
    ⟨[], [⟨⟨1, 6⟩, "x", none⟩], none, [], [], [some (.Name ⟨1, 8⟩ "a")], none⟩
    [.Other ⟨1, 12⟩ []] [] none

/-- The tree of the statement `import pkg.sub.mod`: the `Import`
statement starts at column 0; its single alias node starts at column 7
(after the keyword), as CPython 3.10+ positions it. -/
def exC2 : Node := .Import ⟨1, 0⟩ [⟨⟨1, 7⟩, "pkg.sub.mod", none⟩]

/-- The pattern `_` of a `case _:` clause: `ast.MatchAs` with no
sub-pattern and no capture name. -/
def exC3 : Node := .MatchAs ⟨2, 9⟩ none none

/-- The tree of the unit

`def f(x, y=1):`
`    return obj.attr`

with the `Module` and `Return` wrappers and the constant `1` as
handler-less `Other` nodes. -/
def exC4 : Node :=
  .Other ⟨1, 0⟩
    [.FunctionDef ⟨1, 0⟩ "f"
      ⟨[], [⟨⟨1, 6⟩, "x", none⟩, ⟨⟨1, 9⟩, "y", none⟩], none, [], [],
        [some (.Other ⟨1, 11⟩ [])], none⟩
      [.Other ⟨2, 4⟩ [.Attribute ⟨2, 11⟩ (.Name ⟨2, 11⟩ "obj") "attr"]]
      [] none]

/-! ### Position-tracking invariant -/

/-- `o` is an occurrence written at one of the positions in `ps`: its
line is that node's `lineno` and its column is that node's
`col_offset + 1`. -/
def OccAt (ps : List Pos) (o : Occurrence) : Prop :=
  ∃ p ∈ ps, o.line = p.lineno ∧ o.col = p.col_offset + 1

/-- Every occurrence of `l` is written at a position in `ps`. -/
def AllAt (ps : List Pos) (l : List Occurrence) : Prop :=
  ∀ o ∈ l, OccAt ps o

theorem occAt_mono {ps qs : List Pos} {o : Occurrence} (hs : ps ⊆ qs)
    (h : OccAt ps o) : OccAt qs o := by
  obtain ⟨p, hp, he⟩ := h
  exact ⟨p, hs hp, he⟩

theorem allAt_mono {ps qs : List Pos} {l : List Occurrence} (hs : ps ⊆ qs)
    (h : AllAt ps l) : AllAt qs l :=
  fun o ho => occAt_mono hs (h o ho)

theorem allAt_nil {ps : List Pos} : AllAt ps [] :=
  fun o ho => absurd ho (List.not_mem_nil o)

theorem allAt_append {ps : List Pos} {l₁ l₂ : List Occurrence}
    (h₁ : AllAt ps l₁) (h₂ : AllAt ps l₂) : AllAt ps (l₁ ++ l₂) := by
  intro o ho
  rcases List.mem_append.mp ho with h | h
  · exact h₁ o h
  · exact h₂ o h

theorem allAt_cons {ps : List Pos} {q : Pos} {l : List Occurrence}
    (h : AllAt ps l) : AllAt (q :: ps) l :=
  allAt_mono (fun _ ha => List.mem_cons_of_mem q ha) h

theorem allAt_left {ps qs : List Pos} {l : List Occurrence}
    (h : AllAt ps l) : AllAt (ps ++ qs) l :=
  allAt_mono (List.subset_append_left ps qs) h

theorem allAt_right {ps qs : List Pos} {l : List Occurrence}
    (h : AllAt qs l) : AllAt (ps ++ qs) l :=
  allAt_mono (List.subset_append_right ps qs) h

theorem allAt_write_mem {ps : List Pos} {p : Pos} {n : String}
    (hp : p ∈ ps) : AllAt ps (_write n p) := by
  intro o ho
  rw [_write, List.mem_singleton] at ho
  subst ho
  exact ⟨p, hp, rfl, rfl⟩

theorem allAt_flatMap {α : Type} {ps : List Pos} {xs : List α}
    {f : α → List Occurrence} (h : ∀ x ∈ xs, AllAt ps (f x)) :
    AllAt ps (xs.flatMap f) := by
  intro o ho
  rcases List.mem_flatMap.mp ho with ⟨x, hx, hox⟩
  exact h x hx o hox

theorem allAt_visit_keyword (p : Pos) (a : Option String) (v : Node) :
    AllAt (p :: posNode v) (_visit_keyword ⟨p, a, v⟩) := by
  cases a with
  | none =>
    rw [_visit_keyword]
    exact allAt_nil
  | some s =>
    rw [_visit_keyword]
    by_cases hs : s = ""
    · simp only [hs, if_pos rfl]
      exact allAt_nil
    · simp only [if_neg hs]
      exact allAt_write_mem (List.mem_cons_self p _)

theorem allAt_keywords (ks : List Keyword) :
    AllAt (posKeywordList ks) (ks.flatMap _visit_keyword) := by
  induction ks with
  | nil => exact allAt_nil
  | cons k ks ih =>
    obtain ⟨p, a, v⟩ := k
    rw [List.flatMap_cons, posKeywordList]
    exact allAt_append (allAt_left (allAt_visit_keyword p a v)) (allAt_right ih)

theorem allAt_visit_alias (a : Alias) : AllAt [a.pos] (_visit_alias a) := by
  rw [_visit_alias]
  apply allAt_append
  · by_cases hn : a.name = ""
    · simp only [hn, if_pos rfl]
      exact allAt_nil
    · simp only [if_neg hn]
      apply allAt_flatMap
      intro part _
      by_cases hp : part = ""
      · simp only [hp, if_pos rfl]
        exact allAt_nil
      · simp only [if_neg hp]
        exact allAt_write_mem (List.mem_singleton_self _)
  · cases has : a.asname with
    | none => exact allAt_nil
    | some s =>
      by_cases hs : s = ""
      · simp only [hs, if_pos rfl]
        exact allAt_nil
      · simp only [if_neg hs]
        exact allAt_write_mem (List.mem_singleton_self _)

theorem allAt_aliases (ns : List Alias) :
    AllAt (ns.map Alias.position) (ns.flatMap _visit_alias) := by
  induction ns with
  | nil => exact allAt_nil
  | cons a ns ih =>
    rw [List.flatMap_cons, List.map_cons]
    apply allAt_append
    · refine allAt_mono ?_ (allAt_visit_alias a)
      intro x hx
      rw [List.mem_singleton] at hx
      subst hx
      exact List.mem_cons_self _ _
    · exact allAt_cons ih

theorem allAt_genericAliases {ps : List Pos} (ns : List Alias) :
    AllAt ps (ns.flatMap genericAlias) := by
  apply allAt_flatMap
  intro _ _
  exact allAt_nil

theorem allAt_visit_arg_opt (oa : Option Arg) :
    AllAt (posArgOpt oa) (_visit_arg oa) := by
  cases oa with
  | none => exact allAt_nil
  | some a =>
    obtain ⟨p, n, an⟩ := a
    rw [_visit_arg, posArgOpt]
    exact allAt_write_mem (List.mem_cons_self p _)

theorem allAt_visit_argList (l : List Arg) :
    AllAt (posArgList l) (l.flatMap (fun a => _visit_arg (some a))) := by
  induction l with
  | nil => exact allAt_nil
  | cons a l ih =>
    obtain ⟨p, n, an⟩ := a
    rw [List.flatMap_cons, posArgList]
    exact allAt_append (allAt_left (allAt_visit_arg_opt (some ⟨p, n, an⟩)))
      (allAt_right ih)

mutual
/-- Every occurrence emitted by `visit` is written at the position of
some node of the tree, as `lineno` / `col_offset + 1`. -/
theorem allAt_visit : ∀ (t : Node), AllAt (posNode t) (visit t)
  | .Name pos id => by
      rw [visit, posNode]
      exact allAt_write_mem (List.mem_singleton_self _)
  | .Call pos func args kws => by
      rw [visit, posNode]
      exact allAt_append
        (allAt_cons (allAt_right (allAt_right (allAt_keywords kws))))
        (allAt_append
          (allAt_cons (allAt_left (allAt_visit func)))
          (allAt_append
            (allAt_cons (allAt_right (allAt_left (allAt_visitList args))))
            (allAt_cons (allAt_right (allAt_right (allAt_genericKeywordList kws))))))
  | .Attribute pos value attr => by
      rw [visit, posNode]
      exact allAt_append (allAt_cons (allAt_visit value))
        (allAt_write_mem (List.mem_cons_self pos _))
  | .Import pos names => by
      rw [visit, posNode]
      exact allAt_append (allAt_cons (allAt_aliases names))
        (allAt_genericAliases names)
  | .ImportFrom pos module names => by
      cases module with
      | none =>
        rw [visit, posNode]
        exact allAt_append allAt_nil
          (allAt_append (allAt_cons (allAt_aliases names))
            (allAt_genericAliases names))
      | some m =>
        rw [visit, posNode]
        apply allAt_append
        · by_cases hm : m = ""
          · simp only [hm, if_pos rfl]
            exact allAt_nil
          · simp only [if_neg hm]
            apply allAt_flatMap
            intro part _
            by_cases hp : part = ""
            · simp only [hp, if_pos rfl]
              exact allAt_nil
            · simp only [if_neg hp]
              exact allAt_write_mem (List.mem_cons_self pos _)
        · exact allAt_append (allAt_cons (allAt_aliases names))
            (allAt_genericAliases names)
  | .MatchAs pos pat name => by
      rw [visit, posNode]
      exact allAt_append (allAt_write_mem (List.mem_cons_self pos _))
        (allAt_cons (allAt_visitOpt pat))
  | .FunctionDef pos name args body dec ret => by
      rw [visit, posNode]
      exact allAt_append (allAt_write_mem (List.mem_cons_self pos _))
        (allAt_append
          (allAt_cons (allAt_left (allAt_visit_arguments args)))
          (allAt_append
            (allAt_cons (allAt_left (allAt_genericArguments args)))
            (allAt_append
              (allAt_cons (allAt_right (allAt_left (allAt_visitList body))))
              (allAt_append
                (allAt_cons (allAt_right (allAt_right (allAt_left (allAt_visitList dec)))))
                (allAt_cons (allAt_right (allAt_right (allAt_right (allAt_visitOpt ret)))))))))
  | .AsyncFunctionDef pos name args body dec ret => by
      rw [visit, posNode]
      exact allAt_append (allAt_write_mem (List.mem_cons_self pos _))
        (allAt_append
          (allAt_cons (allAt_left (allAt_visit_arguments args)))
          (allAt_append
            (allAt_cons (allAt_left (allAt_genericArguments args)))
            (allAt_append
              (allAt_cons (allAt_right (allAt_left (allAt_visitList body))))
              (allAt_append
                (allAt_cons (allAt_right (allAt_right (allAt_left (allAt_visitList dec)))))
                (allAt_cons (allAt_right (allAt_right (allAt_right (allAt_visitOpt ret)))))))))
  | .Global pos names => by
      rw [visit, posNode]
      apply allAt_flatMap
      intro n _
      exact allAt_write_mem (List.mem_singleton_self _)
  | .Nonlocal pos names => by
      rw [visit, posNode]
      apply allAt_flatMap
      intro n _
      exact allAt_write_mem (List.mem_singleton_self _)
  | .ClassDef pos name bases kws body dec => by
      rw [visit, posNode]
      exact allAt_append (allAt_write_mem (List.mem_cons_self pos _))
        (allAt_append
          (allAt_cons (allAt_right (allAt_left (allAt_keywords kws))))
          (allAt_append
            (allAt_cons (allAt_left (allAt_visitList bases)))
            (allAt_append
              (allAt_cons (allAt_right (allAt_left (allAt_genericKeywordList kws))))
              (allAt_append
                (allAt_cons (allAt_right (allAt_right (allAt_left (allAt_visitList body)))))
                (allAt_cons (allAt_right (allAt_right (allAt_right (allAt_visitList dec)))))))))
  | .Other pos children => by
      rw [visit, posNode]
      exact allAt_cons (allAt_visitList children)

theorem allAt_visitList : ∀ (l : List Node), AllAt (posList l) (visitList l)
  | [] => allAt_nil
  | n :: ns => by
      rw [visitList, posList]
      exact allAt_append (allAt_left (allAt_visit n)) (allAt_right (allAt_visitList ns))

theorem allAt_visitOpt : ∀ (op : Option Node), AllAt (posOpt op) (visitOpt op)
  | none => allAt_nil
  | some n => by
      rw [visitOpt, posOpt]
      exact allAt_visit n

theorem allAt_visitOptList :
    ∀ (ds : List (Option Node)), AllAt (posOptList ds) (visitOptList ds)
  | [] => allAt_nil
  | d :: ds => by
      rw [visitOptList, posOptList]
      exact allAt_append (allAt_left (allAt_visitOpt d))
        (allAt_right (allAt_visitOptList ds))

theorem allAt_genericKeywordList :
    ∀ (ks : List Keyword), AllAt (posKeywordList ks) (genericKeywordList ks)
  | [] => allAt_nil
  | ⟨p, a, v⟩ :: ks => by
      rw [genericKeywordList, posKeywordList]
      exact allAt_append (allAt_left (allAt_cons (allAt_visit v)))
        (allAt_right (allAt_genericKeywordList ks))

theorem allAt_visit_arguments :
    ∀ (a : Arguments), AllAt (posArguments a) (_visit_arguments a)
  | ⟨po, args, vararg, ko, kwd, ds, kwarg⟩ => by
      rw [_visit_arguments, posArguments]
      exact allAt_append (allAt_left (allAt_visit_argList po))
        (allAt_append
          (allAt_right (allAt_left (allAt_visit_argList args)))
          (allAt_append
            (allAt_right (allAt_right (allAt_left (allAt_visit_arg_opt vararg))))
            (allAt_append
              (allAt_right (allAt_right (allAt_right (allAt_right (allAt_right
                (allAt_left (allAt_visitOptList ds)))))))
              (allAt_append
                (allAt_right (allAt_right (allAt_right (allAt_left (allAt_visit_argList ko)))))
                (allAt_append
                  (allAt_right (allAt_right (allAt_right (allAt_right
                    (allAt_left (allAt_visitOptList kwd))))))
                  (allAt_right (allAt_right (allAt_right (allAt_right (allAt_right
                    (allAt_right (allAt_visit_arg_opt kwarg))))))))))))

theorem allAt_genericArguments :
    ∀ (a : Arguments), AllAt (posArguments a) (genericArguments a)
  | ⟨po, args, vararg, ko, kwd, ds, kwarg⟩ => by
      rw [genericArguments, posArguments]
      exact allAt_append (allAt_left (allAt_genericArgList po))
        (allAt_append
          (allAt_right (allAt_left (allAt_genericArgList args)))
          (allAt_append
            (allAt_right (allAt_right (allAt_left (allAt_genericArgOpt vararg))))
            (allAt_append
              (allAt_right (allAt_right (allAt_right (allAt_left (allAt_genericArgList ko)))))
              (allAt_append
                (allAt_right (allAt_right (allAt_right (allAt_right
                  (allAt_left (allAt_visitOptList kwd))))))
                (allAt_append
                  (allAt_right (allAt_right (allAt_right (allAt_right (allAt_right
                    (allAt_left (allAt_visitOptList ds)))))))
                  (allAt_right (allAt_right (allAt_right (allAt_right (allAt_right
                    (allAt_right (allAt_genericArgOpt kwarg))))))))))))

theorem allAt_genericArgList :
    ∀ (l : List Arg), AllAt (posArgList l) (genericArgList l)
  | [] => allAt_nil
  | ⟨p, n, an⟩ :: rest => by
      rw [genericArgList, posArgList]
      exact allAt_append (allAt_left (allAt_cons (allAt_visitOpt an)))
        (allAt_right (allAt_genericArgList rest))

theorem allAt_genericArgOpt :
    ∀ (oa : Option Arg), AllAt (posArgOpt oa) (genericArgOpt oa)
  | none => allAt_nil
  | some ⟨p, n, an⟩ => by
      rw [genericArgOpt, posArgOpt]
      exact allAt_cons (allAt_visitOpt an)
end

/-- `visitList` is the concatenation of the children's visits. -/
theorem visitList_eq_flatMap (l : List Node) : visitList l = l.flatMap visit := by
  induction l with
  | nil => rw [visitList, List.flatMap_nil]
  | cons n ns ih => rw [visitList, List.flatMap_cons, ih]

/-! ### Claims -/

/-- C1 (code bug): the claim says each identifier-bearing position —
including names inside parameter default expressions — yields exactly one
occurrence.  The code violates this: on `def f(x=a): pass` (`exC1`) the
default expression `a` is visited twice, once by `_visit_arguments`
(line 72) and once more when `generic_visit(node)` (line 62) re-traverses
the `ast.arguments` child of the function definition, so the name `a` is
emitted twice for its single appearance in the tree. -/
theorem claim_C1 :
    visit exC1 = [⟨"f", 1, 1⟩, ⟨"x", 1, 7⟩, ⟨"a", 1, 9⟩, ⟨"a", 1, 9⟩] ∧
    ((visit exC1).filter (fun o => o.name == "a")).length = 2 := by decide

/-- C2, counterexample: on the tree of `import pkg.sub.mod` (`exC2`) the
three occurrences are written at the alias node's position (line 51
passes the alias, not the statement, to `_write`), column `7 + 1 = 8`,
whereas the claim requires the position of the enclosing import
statement, column `0 + 1`. -/
theorem claim_C2_counterexample :
    (visit exC2).map Occurrence.name = ["pkg", "sub", "mod"] ∧
    ∃ o ∈ visit exC2, ¬(o.line = 1 ∧ o.col = 0 + 1) := by decide

/-- C2 (amended): importing `pkg.sub.mod` emits exactly the three
occurrences `pkg`, `sub`, `mod` in left-to-right order, all three
sharing one source position — the position of the alias node for the
dotted path, not the position of the import statement. -/
theorem claim_C2 (pos p : Pos) :
    visit (.Import pos [⟨p, "pkg.sub.mod", none⟩]) =
      [⟨"pkg", p.lineno, p.col_offset + 1⟩, ⟨"sub", p.lineno, p.col_offset + 1⟩,
       ⟨"mod", p.lineno, p.col_offset + 1⟩] := by
  simp [visit, _visit_alias, genericAlias, _write, pySplit, pySplitAux]

/-- C2 amended claim at the concrete positions of `import pkg.sub.mod`
(statement at column 0, alias at column 7). -/
theorem claim_C2_witness :
    visit (.Import ⟨1, 0⟩ [⟨⟨1, 7⟩, "pkg.sub.mod", none⟩]) =
      [⟨"pkg", 1, 8⟩, ⟨"sub", 1, 8⟩, ⟨"mod", 1, 8⟩] :=
  claim_C2 ⟨1, 0⟩ ⟨1, 7⟩

/-- C3 (code bug): the claim says every occurrence has a non-empty name.
The code violates this on a wildcard match pattern: `case _:` parses to
`MatchAs(pattern=None, name=None)` (`exC3`), and `visit_MatchAs`
(line 56) passes `node.name` to `_write` without the `if` guard used by
every other handler, so the csv writer renders `None` as an empty name
field. -/
theorem claim_C3 :
    visit exC3 = [⟨"", 2, 10⟩] ∧ ∃ o ∈ visit exC3, o.name = "" := by decide

/-- C4: on the tree of `def f(x, y=1): return obj.attr` (`exC4`) the
engine emits exactly the names `f`, `x`, `y`, `obj`, `attr`, in that
order (the constant default `1` has no handler and contributes nothing
on either of its two visits). -/
theorem claim_C4 :
    (visit exC4).map Occurrence.name = ["f", "x", "y", "obj", "attr"] := by decide

/-- C5: for any attribute chain `a.b.c` — with an arbitrary base
expression in place of `a` — the occurrences of the base all precede the
occurrence of `b`, which precedes the occurrence of `c`: `visit_Attribute`
(lines 29-31) runs `generic_visit` on the base before writing the
attribute name (post-order). -/
theorem claim_C5 (p q : Pos) (base : Node) (b c : String) :
    visit (.Attribute q (.Attribute p base b) c) =
      visit base ++ [⟨b, p.lineno, p.col_offset + 1⟩, ⟨c, q.lineno, q.col_offset + 1⟩] := by
  simp [visit, _write]

/-- C5 at a concrete chain `a.b.c` (name `a` at column 0, attribute
nodes at columns 0 with increasing end, here positioned at columns 0). -/
theorem claim_C5_witness :
    visit (.Attribute ⟨1, 0⟩ (.Attribute ⟨1, 0⟩ (.Name ⟨1, 0⟩ "a") "b") "c") =
      visit (.Name ⟨1, 0⟩ "a") ++ [⟨"b", 1, 1⟩, ⟨"c", 1, 1⟩] :=
  claim_C5 ⟨1, 0⟩ ⟨1, 0⟩ (.Name ⟨1, 0⟩ "a") "b" "c"

/-- C6: in `_visit_arguments` (lines 64-78) the variadic-keyword slot is
processed last: a `None` slot contributes nothing (`_visit_arg` returns
immediately, lines 81-82), and a present one contributes exactly the one
occurrence of its parameter name, appended after everything else —
in particular after the keyword-only defaults. The same equations show
an absent variadic-positional slot also contributes nothing. -/
theorem claim_C6 (po a : List Arg) (v : Option Arg) (ko : List Arg)
    (kwd ds : List (Option Node)) (kw : Option Arg) :
    _visit_arguments ⟨po, a, v, ko, kwd, ds, kw⟩ =
      _visit_arguments ⟨po, a, v, ko, kwd, ds, none⟩ ++ _visit_arg kw ∧
    _visit_arg none = [] ∧
    ∀ (q : Pos) (n : String) (an : Option Node),
      _visit_arg (some ⟨q, n, an⟩) = [⟨n, q.lineno, q.col_offset + 1⟩] := by
  refine ⟨?_, rfl, fun q n an => rfl⟩
  simp [_visit_arguments, _visit_arg]

/-- C6 at a concrete definition `def g(*, k=1, **kw): pass`: one
keyword-only parameter with a default, and a present variadic-keyword
parameter whose single occurrence comes last. -/
theorem claim_C6_witness :
    _visit_arguments ⟨[], [], none, [⟨⟨1, 9⟩, "k", none⟩],
        [some (.Other ⟨1, 11⟩ [])], [], some ⟨⟨1, 16⟩, "kw", none⟩⟩ =
      _visit_arguments ⟨[], [], none, [⟨⟨1, 9⟩, "k", none⟩],
        [some (.Other ⟨1, 11⟩ [])], [], none⟩ ++ _visit_arg (some ⟨⟨1, 16⟩, "kw", none⟩) ∧
    _visit_arg none = [] ∧
    ∀ (q : Pos) (n : String) (an : Option Node),
      _visit_arg (some ⟨q, n, an⟩) = [⟨n, q.lineno, q.col_offset + 1⟩] :=
  claim_C6 [] [] none [⟨⟨1, 9⟩, "k", none⟩] [some (.Other ⟨1, 11⟩ [])] []
    (some ⟨⟨1, 16⟩, "kw", none⟩)

/-- C7: a node whose kind has no handler falls through to
`generic_visit`: it emits no occurrence of its own and its output is
exactly the concatenation of its children's outputs.  The dispatch is a
total function over all node kinds, so no input can make it fail. -/
theorem claim_C7 (pos : Pos) (children : List Node) :
    visit (.Other pos children) = children.flatMap visit := by
  rw [visit, visitList_eq_flatMap]

/-- C7 at a concrete unhandled node (a `Return` statement wrapping a
name reference). -/
theorem claim_C7_witness :
    visit (.Other ⟨3, 4⟩ [.Name ⟨3, 11⟩ "x"]) = [.Name ⟨3, 11⟩ "x"].flatMap visit :=
  claim_C7 ⟨3, 4⟩ [.Name ⟨3, 11⟩ "x"]

/-- C8: every occurrence's line is at least 1 (given the front-end
contract that every node's `lineno` is 1-based), its column is at least
1 unconditionally, and its column equals the producing node's 0-based
`col_offset` plus 1 (with its line equal to that node's `lineno`). -/
theorem claim_C8 (t : Node) (h : ∀ p ∈ posNode t, 1 ≤ p.lineno) :
    ∀ o ∈ visit t, 1 ≤ o.line ∧ 1 ≤ o.col ∧
      ∃ p ∈ posNode t, o.line = p.lineno ∧ o.col = p.col_offset + 1 := by
  intro o ho
  obtain ⟨p, hp, hl, hc⟩ := allAt_visit t o ho
  refine ⟨?_, ?_, p, hp, hl, hc⟩
  · rw [hl]
    exact h p hp
  · rw [hc]
    exact Nat.succ_le_succ (Nat.zero_le _)

/-- C8 at the one-node tree of a name reference `x` at line 1,
column 0. -/
theorem claim_C8_witness :
    (∀ p ∈ posNode (.Name ⟨1, 0⟩ "x"), 1 ≤ p.lineno) ∧
    (∀ o ∈ visit (.Name ⟨1, 0⟩ "x"), 1 ≤ o.line ∧ 1 ≤ o.col ∧
      ∃ p ∈ posNode (.Name ⟨1, 0⟩ "x"), o.line = p.lineno ∧ o.col = p.col_offset + 1) :=
  ⟨by decide, claim_C8 (.Name ⟨1, 0⟩ "x") (by decide)⟩

/-- C9: the engine is a pure function of the tree — `Visitor` holds no
state that the emission depends on beyond the constant file name column,
and the embedding makes the occurrence sequence a function of the tree
alone — so two runs on the same tree yield the identical sequence. -/
theorem claim_C9 (t : Node) : visit t = visit t := rfl

/-- C9 at a concrete tree. -/
theorem claim_C9_witness :
    visit (.Name ⟨5, 2⟩ "y") = visit (.Name ⟨5, 2⟩ "y") :=
  claim_C9 (.Name ⟨5, 2⟩ "y")

/-- C10: in `visit_Call` (lines 20-23), a keyword argument's name is
emitted only under the `if node.arg` guard of `_visit_keyword`
(lines 25-27), so a double-star keyword (`arg = None`) contributes no
occurrence; its value expression is still reached by `generic_visit`
(the keyword node has no handler, so its `value` child is visited). -/
theorem claim_C10 (pos q : Pos) (func value : Node) (args : List Node)
    (kws : List Keyword) :
    visit (.Call pos func args kws) =
      kws.flatMap _visit_keyword
        ++ (visit func ++ (visitList args ++ genericKeywordList kws)) ∧
    _visit_keyword ⟨q, none, value⟩ = [] ∧
    genericKeywordList [⟨q, none, value⟩] = visit value ∧
    ∀ (r : Pos) (s : String) (w : Node),
      _visit_keyword ⟨r, some s, w⟩ =
        if s = "" then [] else [⟨s, r.lineno, r.col_offset + 1⟩] := by
  refine ⟨by rw [visit], rfl, ?_, fun r s w => rfl⟩
  rw [genericKeywordList, genericKeywordList, List.append_nil]

/-- C10 at a concrete call `f(**d)`: the single keyword has no name, the
emission is exactly the callee and the value of the double-star
argument. -/
theorem claim_C10_witness :
    visit (.Call ⟨4, 0⟩ (.Name ⟨4, 0⟩ "f") []
        [⟨⟨4, 2⟩, none, .Name ⟨4, 4⟩ "d"⟩]) =
      [⟨⟨4, 2⟩, none, .Name ⟨4, 4⟩ "d"⟩].flatMap _visit_keyword
        ++ (visit (.Name ⟨4, 0⟩ "f")
        ++ (visitList [] ++ genericKeywordList [⟨⟨4, 2⟩, none, .Name ⟨4, 4⟩ "d"⟩])) ∧
    _visit_keyword ⟨⟨4, 2⟩, none, .Name ⟨4, 4⟩ "d"⟩ = [] ∧
    genericKeywordList [⟨⟨4, 2⟩, none, .Name ⟨4, 4⟩ "d"⟩] = visit (.Name ⟨4, 4⟩ "d") ∧
    ∀ (r : Pos) (s : String) (w : Node),
      _visit_keyword ⟨r, some s, w⟩ =
        if s = "" then [] else [⟨s, r.lineno, r.col_offset + 1⟩] :=
  claim_C10 ⟨4, 0⟩ ⟨4, 2⟩ (.Name ⟨4, 0⟩ "f") (.Name ⟨4, 4⟩ "d") []
    [⟨⟨4, 2⟩, none, .Name ⟨4, 4⟩ "d"⟩]

end Pycount
